import Mathlib

/-!
Verification of the URL-probing core of the `cuban_URL.py` scraper.

We give a shallow embedding of the probing pipeline: the Python string
operations used by the code are modelled over `List Char` / `String`
(Python `str.lower` is modelled character-wise on the ASCII range,
matching Python on ASCII input), the network is an explicit oracle
mapping a URL to the outcome of `requests.get` (a response, an
`SSLError`, or any other exception), and the stateful loops of
`probe_domain` / `probe_all_domains` / `generate_summary_report`
become recursive functions threading their accumulators.
-/

namespace CubanURL

/-! ## Python string primitives -/

/-- Whitespace as stripped by Python `str.strip()` (ASCII range). -/
def pyIsSpace (c : Char) : Bool :=
  c == ' ' || c == '\t' || c == '\n' || c == '\r' || c == '\x0b' || c == '\x0c'

/-- Model of Python `str.strip()` on the character list. -/
def stripChars (l : List Char) : List Char :=
  ((l.dropWhile pyIsSpace).reverse.dropWhile pyIsSpace).reverse

/-- Model of Python `str.strip()`. -/
def pyStrip (s : String) : String :=
  ⟨stripChars s.data⟩

/-- Model of Python `str.lower` on one character (ASCII letters only;
this matches Python for all ASCII input). -/
def pyCharLower (c : Char) : Char :=
  if 65 ≤ c.toNat ∧ c.toNat ≤ 90 then Char.ofNat (c.toNat + 32) else c

/-- Model of Python `str.lower()` (character-wise, ASCII). -/
def pyLower (s : String) : String :=
  ⟨s.data.map pyCharLower⟩

/-- Model of Python `str.startswith`. -/
def pyStartsWith (s pre : String) : Bool :=
  pre.data.isPrefixOf s.data

/-- Model of Python slicing `s[n:]`. -/
def pyDrop (s : String) (n : Nat) : String :=
  ⟨s.data.drop n⟩

/-- Model of Python slicing `s[:n]`. -/
def pyTake (s : String) (n : Nat) : String :=
  ⟨s.data.take n⟩

/-- Model of Python slicing `s[a:b]` (for `0 ≤ a`, `0 ≤ b`). -/
def pySlice (s : String) (a b : Nat) : String :=
  ⟨(s.data.take b).drop a⟩

/-- Model of Python `s.split(c)[0]`: the characters before the first
occurrence of `c`. -/
def takeUntil (c : Char) (l : List Char) : List Char :=
  l.takeWhile (fun x => x != c)

/-! ## `clean_domain` (cuban_URL.py lines 200-221) -/

/-- Embedding of `CubanURLDiscovery.clean_domain`: strip whitespace,
drop a leading `http://` / `https://`, drop a leading `www.`, cut at the
first `/`, `?`, `#`, cut at the first `:`, and lower-case the result. -/
def clean_domain (domain : String) : String :=
  let d := pyStrip domain
  let d := if pyStartsWith d "http://" then pyDrop d 7
           else if pyStartsWith d "https://" then pyDrop d 8
           else d
  let d := if pyStartsWith d "www." then pyDrop d 4 else d
  let l := takeUntil '#' (takeUntil '?' (takeUntil '/' d.data))
  let l := if l.contains ':' then takeUntil ':' l else l
  pyLower ⟨l⟩

/-! ## `load_domains` (cuban_URL.py lines 131-198)

The file I/O, delimiter guessing and header validation (lines 133-158)
are input handling outside the model: `rows` below are the parsed CSV
records in file order, each an ordered association list of column name
to cell value, exactly what `csv.DictReader` yields. -/

/-- The recognized domain column aliases (line 160). -/
def domain_columns : List String :=
  ["Domain", "domain", "URL", "url", "hostname", "Hostname", "site", "Site",
   "website", "Website"]

/-- Embedding of the column scan of lines 163-167: the first recognized
column whose cell is non-empty after stripping gives the stripped cell. -/
def findDomain : List String → List (String × String) → Option String
  | [], _ => none
  | c :: cs, row =>
    match row.lookup c with
    | some v => if v ≠ "" ∧ pyStrip v ≠ "" then some (pyStrip v) else findDomain cs row
    | none => findDomain cs row

/-- Embedding of the fallback scan of lines 176-182: walk the row's
columns in order; the first cell whose cleaned value contains a `.` and
no space is appended (if new) and the scan stops. -/
def processRowFallback (domains : List String) :
    List (String × String) → List String
  | [] => domains
  | (_, v) :: rest =>
    if v ≠ "" ∧ pyStrip v ≠ "" then
      if '.' ∈ (clean_domain (pyStrip v)).data ∧ ' ' ∉ (clean_domain (pyStrip v)).data then
        if clean_domain (pyStrip v) ∉ domains then domains ++ [clean_domain (pyStrip v)]
        else domains
      else processRowFallback domains rest
    else processRowFallback domains rest

/-- Embedding of the per-row branch of lines 162-182. -/
def processRow (domains : List String) (row : List (String × String)) :
    List String :=
  match findDomain domain_columns row with
  | some d =>
    if clean_domain d ≠ "" ∧ clean_domain d ∉ domains then domains ++ [clean_domain d]
    else domains
  | none => processRowFallback domains row

/-- Embedding of `CubanURLDiscovery.load_domains` restricted to its row
loop: fold the per-row processing over the parsed records. -/
def load_domains (rows : List (List (String × String))) : List String :=
  rows.foldl processRow []

/-- The invariant every element of `load_domains`' output satisfies. -/
def hostInvariant (h : String) : Prop :=
  h ≠ "" ∧ pyLower h = h ∧
  pyStartsWith h "http://" = false ∧ pyStartsWith h "https://" = false ∧
  '/' ∉ h.data ∧ '?' ∉ h.data ∧ '#' ∉ h.data ∧ ':' ∉ h.data

instance (h : String) : Decidable (hostInvariant h) := by
  unfold hostInvariant
  infer_instance

/-! ## `extract_title` (cuban_URL.py lines 268-279) -/

/-- Model of Python `str.find(pat, i)` restricted to the tail `s`:
returns the absolute index of the first match at or after offset `i`. -/
def findAux (pat : List Char) (s : List Char) (i : Nat) : Option Nat :=
  if pat.isPrefixOf s then some i
  else
    match s with
    | [] => none
    | _ :: t => findAux pat t (i + 1)

/-- Model of Python `s.find(pat, start)`, with `None` for `-1`. -/
def pyFind (s pat : String) (start : Nat) : Option Nat :=
  findAux pat.data (s.data.drop start) start

/-- The pattern `pat` occurs in `s` at index `i`. -/
def matchesAt (s pat : String) (i : Nat) : Prop :=
  pat.data.isPrefixOf (s.data.drop i) = true

instance (s pat : String) (i : Nat) : Decidable (matchesAt s pat i) := by
  unfold matchesAt
  infer_instance

/-- The index `i` is the first occurrence of `pat` in `s` at or after `k`. -/
def leastOcc (s pat : String) (k i : Nat) : Prop :=
  k ≤ i ∧ matchesAt s pat i ∧ ∀ m < i, k ≤ m → ¬ matchesAt s pat m

instance (s pat : String) (k i : Nat) : Decidable (leastOcc s pat k i) := by
  unfold leastOcc
  infer_instance

/-- Embedding of `CubanURLDiscovery.extract_title`: case-insensitive scan
for the first `<title>`, then the first `</title>` from there; the slice
between them (of the original text) is stripped and cut to 200
characters; otherwise the empty string.  The Python `try`/`except`
wrapper never fires in this total model, matching the code's
never-raises contract. -/
def extract_title (html : String) : String :=
  match pyFind (pyLower html) "<title>" 0 with
  | none => ""
  | some start =>
    match pyFind (pyLower html) "</title>" start with
    | none => ""
    | some e => pyTake (pyStrip (pySlice html (start + 7) e)) 200

/-! ## URL helpers (`urllib.parse` fragments used by the code) -/

/-- Split a character list at the first `://`: returns the part up to and
including the mark, and the remainder. -/
def afterSchemeMark : List Char → Option (List Char × List Char)
  | [] => none
  | ':' :: '/' :: '/' :: rest => some ([':', '/', '/'], rest)
  | c :: t =>
    match afterSchemeMark t with
    | some (p, r) => some (c :: p, r)
    | none => none

/-- Model of `urlparse(url).netloc` for URLs carrying a `scheme://` mark
(every `response.url` produced by `requests` does): the text after the
first `://` up to the first `/`, `?` or `#`. -/
def netlocOf (url : String) : String :=
  match afterSchemeMark url.data with
  | some (_, rest) => ⟨rest.takeWhile (fun c => !(c == '/' || c == '?' || c == '#'))⟩
  | none => ""

/-- Model of `urljoin(base, path)` for the root-relative paths used by
`probe_domain` (every entry of `paths` starts with `/`): keep the base's
scheme and network location and replace everything after them by
`path`. -/
def urljoinRoot (base path : String) : String :=
  match afterSchemeMark base.data with
  | some (pre, rest) =>
    ⟨pre ++ rest.takeWhile (fun c => !(c == '/' || c == '?' || c == '#')) ++ path.data⟩
  | none => path

/-- Model of Python `url.replace('https://', 'http://')`: replace every
occurrence, scanning left to right; the fuel argument (instantiated with
the list length, an upper bound on the number of steps) makes the
recursion structural. -/
def replaceHtAux : Nat → List Char → List Char
  | _, [] => []
  | 0, l => l
  | fuel + 1, c :: t =>
    if ("https://".data).isPrefixOf (c :: t) then
      "http://".data ++ replaceHtAux fuel ((c :: t).drop 8)
    else
      c :: replaceHtAux fuel t

/-- Model of Python `url.replace('https://', 'http://')`. -/
def pyReplaceHttps (s : String) : String :=
  ⟨replaceHtAux s.data.length s.data⟩

/-! ## The network model and `check_url` (cuban_URL.py lines 237-266) -/

/-- The attributes of a `requests` response that `check_url` reads.
`url` is the final URL after redirects; `content_length` stands for
`len(response.content)`; absent `Server` / `Content-Type` headers are
`none` (Python `headers.get(..., 'Unknown')`). -/
structure PyResponse where
  status_code : Nat
  url : String
  text : String
  content_length : Nat
  server : Option String
  content_type : Option String
deriving DecidableEq

/-- One `requests.get(url, ...)` call either returns a response, raises
`requests.exceptions.SSLError`, or raises some other exception.  A
network oracle maps each URL to its outcome. -/
inductive NetOutcome where
  | success (r : PyResponse)
  | sslError
  | otherError
deriving DecidableEq

/-- The dictionary built by `check_url` on a successful exchange
(lines 248-258).  The wall-clock `discovery_time` field is omitted from
the model; no claim concerns it. -/
structure ProbeResult where
  url : String
  status_code : Nat
  final_url : String
  title : String
  content_length : Nat
  server : String
  content_type : String
  domain : String
deriving DecidableEq

def mkProbeResult (url : String) (r : PyResponse) : ProbeResult :=
  { url := url
    status_code := r.status_code
    final_url := r.url
    title := extract_title r.text
    content_length := r.content_length
    server := r.server.getD "Unknown"
    content_type := r.content_type.getD "Unknown"
    domain := netlocOf r.url }

/-- Embedding of `CubanURLDiscovery.check_url`, with explicit recursion
fuel: a successful GET yields the result dictionary; `SSLError` on an
`https://`-prefixed URL retries the URL with `https://` replaced by
`http://`; any other exception yields `None`.  (The theorem on claim C4
shows fuel 2 already computes the fixed point: the rewritten URL never
starts with `https://` again, so the Python recursion never goes past
depth one.) -/
def check_urlFuel (net : String → NetOutcome) : Nat → String → Option ProbeResult
  | 0, _ => none
  | n + 1, url =>
    match net url with
    | .success r => some (mkProbeResult url r)
    | .sslError =>
      if pyStartsWith url "https://" = true then
        check_urlFuel net n (pyReplaceHttps url)
      else none
    | .otherError => none

/-- Embedding of `check_url` proper. -/
def check_url (net : String → NetOutcome) (url : String) : Option ProbeResult :=
  check_urlFuel net 2 url

/-- A network on which every request raises a non-TLS exception. -/
def netOther : String → NetOutcome := fun _ => NetOutcome.otherError

/-- The response returned by the rewritten-URL retry in the C4
counterexample. -/
def resp200 : PyResponse :=
  { status_code := 200, url := "http://h.cu/a?u=http://x.cu/", text := "",
    content_length := 0, server := none, content_type := none }

/-- A network where the probed HTTPS URL raises a TLS error, the
fully-rewritten URL answers 200, and everything else (in particular the
URL with only its scheme rewritten) raises. -/
def netWildRewrite : String → NetOutcome := fun u =>
  if u = "https://h.cu/a?u=https://x.cu/" then NetOutcome.sslError
  else if u = "http://h.cu/a?u=http://x.cu/" then NetOutcome.success resp200
  else NetOutcome.otherError

/-- The response used by the C4 witness network. -/
def respOkPlain : PyResponse :=
  { status_code := 200, url := "http://ok.cu/", text := "<html><title>ok</title></html>",
    content_length := 30, server := some "nginx", content_type := none }

/-- A network raising a TLS error on the HTTPS URL and answering 200 on
the HTTP rewrite. -/
def netSslThenOk : String → NetOutcome := fun u =>
  if u = "https://ok.cu/" then NetOutcome.sslError
  else if u = "http://ok.cu/" then NetOutcome.success respOkPlain
  else NetOutcome.otherError

/-! ## `probe_domain` (cuban_URL.py lines 281-311) -/

/-- The fixed probe-path list `self.paths` (lines 20-62). -/
def paths : List String :=
  ["/", "/index.html", "/index.php", "/home", "/inicio", "/portal", "/admin",
   "/login", "/acceso", "/tramites", "/servicios", "/ciudadano", "/consulta",
   "/noticias", "/prensa", "/transparencia", "/estadisticas", "/contacto",
   "/acerca", "/sobre", "/directorio", "/enlaces", "/documentos", "/normativas",
   "/leyes", "/resoluciones", "/downloads", "/descargas", "/buscar", "/search",
   "/sitemap.xml", "/robots.txt", "/api", "/servicios-web", "/webservices",
   "/css/style.css", "/images", "/media", "/uploads", "/files", "/archivos"]

/-- One `check_url` invocation performed by `probe_domain`, recorded for
the trace: the protocol and path that produced it, the candidate URL,
and the checker's outcome. -/
structure Attempt where
  protocol : String
  path : String
  url : String
  result : Option ProbeResult
deriving DecidableEq

/-- Embedding of the inner path loop of `probe_domain` (lines 289-300)
for one protocol, instrumented with the list of attempts it performs:
each path is joined onto `protocol://domain` and checked; results with
status below 500 are appended; on HTTPS a 200 status breaks the loop.
(The `time.sleep(0.1)` pacing has no effect on the data flow and is not
modelled.)  Returns the grown result list and the attempt trace. -/
def probePaths (net : String → NetOutcome) (protocol domain : String) :
    List String → List ProbeResult → List ProbeResult × List Attempt
  | [], found => (found, [])
  | path :: rest, found =>
    match check_url net (urljoinRoot (protocol ++ "://" ++ domain) path) with
    | some r =>
      if r.status_code < 500 then
        if protocol = "https" ∧ r.status_code = 200 then
          (found ++ [r],
           [⟨protocol, path, urljoinRoot (protocol ++ "://" ++ domain) path, some r⟩])
        else
          ((probePaths net protocol domain rest (found ++ [r])).1,
           ⟨protocol, path, urljoinRoot (protocol ++ "://" ++ domain) path, some r⟩ ::
             (probePaths net protocol domain rest (found ++ [r])).2)
      else
        ((probePaths net protocol domain rest found).1,
         ⟨protocol, path, urljoinRoot (protocol ++ "://" ++ domain) path, some r⟩ ::
           (probePaths net protocol domain rest found).2)
    | none =>
      ((probePaths net protocol domain rest found).1,
       ⟨protocol, path, urljoinRoot (protocol ++ "://" ++ domain) path, none⟩ ::
         (probePaths net protocol domain rest found).2)

/-- Embedding of `probe_domain` with its protocol loop (lines 286-304),
instrumented: the HTTPS pass runs first; if it accumulated any result,
the loop breaks (line 302-304) and the HTTP pass never runs; otherwise
the HTTP pass runs on the (empty) accumulated list.  Returns the final
result list, the HTTPS attempt trace and the HTTP attempt trace. -/
def probe_domainFull (net : String → NetOutcome) (domain : String) :
    List ProbeResult × List Attempt × List Attempt :=
  if (probePaths net "https" domain paths []).1 = [] then
    ((probePaths net "http" domain paths (probePaths net "https" domain paths []).1).1,
     (probePaths net "https" domain paths []).2,
     (probePaths net "http" domain paths (probePaths net "https" domain paths []).1).2)
  else
    ((probePaths net "https" domain paths []).1,
     (probePaths net "https" domain paths []).2,
     [])

/-- The result list returned by `probe_domain`. -/
def probe_domain (net : String → NetOutcome) (domain : String) : List ProbeResult :=
  (probe_domainFull net domain).1

/-- The `check_url` attempts the HTTPS pass performs. -/
def httpsAttempts (net : String → NetOutcome) (domain : String) : List Attempt :=
  (probe_domainFull net domain).2.1

/-- The `check_url` attempts the HTTP pass performs. -/
def httpAttempts (net : String → NetOutcome) (domain : String) : List Attempt :=
  (probe_domainFull net domain).2.2

/-- The response of the single live URL in the witness network. -/
def resp200cu : PyResponse :=
  { status_code := 200, url := "https://h.cu/", text := "", content_length := 0,
    server := none, content_type := none }

/-- A network where only `https://h.cu/` answers (with a 200). -/
def netOneHit : String → NetOutcome := fun u =>
  if u = "https://h.cu/" then NetOutcome.success resp200cu else NetOutcome.otherError

/-! ## `probe_all_domains` (cuban_URL.py lines 313-333)

The `ThreadPoolExecutor` block submits exactly one `probe_domain` future
per entry of the host list (the dict comprehension of lines 321-324) and
`as_completed` yields each submitted future exactly once, in an order
that depends on scheduling.  The model makes the scheduling explicit:
`outcome` maps a host to its task's outcome — `.ok` with the list
`probe_domain` returned, or `.error` when the task raised — and the
completion order is an arbitrary permutation of the submitted hosts.
The `try`/`except` of lines 328-333 turns an erroring host into zero
contributed results. -/

/-- The results one host's task contributes after the per-host
`try`/`except`: its returned list, or nothing when it raised. -/
def taskResults (outcome : String → Except String (List ProbeResult))
    (domain : String) : List ProbeResult :=
  match outcome domain with
  | .ok rs => rs
  | .error _ => []

/-- Embedding of the collection loop of `probe_all_domains` (lines
326-333): fold over the futures in completion order, extending the
accumulator with each successful task's results (the `if results:` guard
of line 330 kept verbatim) and skipping tasks that raised. -/
def probe_all_domains (outcome : String → Except String (List ProbeResult))
    (completionOrder : List String) : List ProbeResult :=
  completionOrder.foldl
    (fun acc d =>
      match outcome d with
      | .ok rs => if rs ≠ [] then acc ++ rs else acc
      | .error _ => acc) []

/-- The concatenation, in host-list order, of every host's contributed
results. -/
def flatResults (outcome : String → Except String (List ProbeResult)) :
    List String → List ProbeResult
  | [] => []
  | d :: rest => taskResults outcome d ++ flatResults outcome rest

/-- The per-host outcomes for the C6 witness: `a.cu` succeeds with one
result, `b.cu`'s task raises. -/
def outcomeMixed : String → Except String (List ProbeResult) := fun d =>
  if d = "a.cu" then Except.ok [mkProbeResult "https://h.cu/" resp200cu]
  else Except.error "unexpected error"

/-! ## `generate_summary_report` (cuban_URL.py lines 369-419) -/

/-- One step of the Python counting-dict update
(`if k not in d: d[k] = 0` then `d[k] += 1`), on an association list in
insertion order, as a `dict` iterates. -/
def bump {α : Type} [BEq α] : List (α × Nat) → α → List (α × Nat)
  | [], k => [(k, 1)]
  | (a, n) :: rest, k =>
    if a == k then (a, n + 1) :: rest else (a, n) :: bump rest k

/-- The `domains_dict` of lines 375-385: resolved host → result count. -/
def hostCounts (urls : List ProbeResult) : List (String × Nat) :=
  urls.foldl (fun d u => bump d u.domain) []

/-- The `status_summary` of lines 376-390: status code → result count. -/
def statusCounts (urls : List ProbeResult) : List (Nat × Nat) :=
  urls.foldl (fun d u => bump d u.status_code) []

/-- Embedding of `generate_summary_report`: on an empty result list the
function returns early (line 371-372) and builds no mapping at all;
otherwise it builds both counting dictionaries in one pass.  The CSV
serialization of the mappings (lines 392-419) is output handling outside
the model. -/
def generate_summary_report (urls : List ProbeResult) :
    Option (List (String × Nat) × List (Nat × Nat)) :=
  if urls = [] then none else some (hostCounts urls, statusCounts urls)

/-- The number of elements of `xs` whose key under `f` equals `k`. -/
def countKey {α β : Type} [BEq α] (f : β → α) (k : α) (xs : List β) : Nat :=
  (xs.filter (fun x => f x == k)).length

/-! ## Theorems -/

/-! ## Properties of the string primitives -/

theorem toNat_ofNat_valid {n : Nat} (h : n < 55296) : (Char.ofNat n).toNat = n := by
  have hv : n.isValidChar := Or.inl h
  simp [Char.ofNat, dif_pos hv, Char.ofNatAux, Char.toNat, UInt32.toNat, BitVec.toNat_ofNatLt]

theorem pyCharLower_idem (c : Char) : pyCharLower (pyCharLower c) = pyCharLower c := by
  unfold pyCharLower
  split
  · next h =>
    have h32 : (Char.ofNat (c.toNat + 32)).toNat = c.toNat + 32 :=
      toNat_ofNat_valid (by omega)
    rw [if_neg]
    omega
  · rfl

theorem pyCharLower_ne_low {c m : Char} (hm : m.toNat < 97) (hc : c ≠ m) :
    pyCharLower c ≠ m := by
  unfold pyCharLower
  split
  · next h =>
    intro he
    have h32 : (Char.ofNat (c.toNat + 32)).toNat = c.toNat + 32 :=
      toNat_ofNat_valid (by omega)
    rw [he] at h32
    omega
  · exact hc

theorem pyLower_idem (s : String) : pyLower (pyLower s) = pyLower s := by
  unfold pyLower
  simp [List.map_map, Function.comp_def, pyCharLower_idem]

theorem mem_of_mem_takeUntil {c x : Char} {l : List Char} (h : x ∈ takeUntil c l) :
    x ∈ l :=
  (List.takeWhile_sublist _).mem h

theorem not_mem_takeUntil (c : Char) (l : List Char) : c ∉ takeUntil c l := by
  intro h
  have := List.mem_takeWhile_imp h
  simp at this

theorem takeUntil_eq_self {c : Char} {l : List Char} (h : c ∉ l) :
    takeUntil c l = l := by
  induction l with
  | nil => rfl
  | cons a t ih =>
    simp only [List.mem_cons, not_or] at h
    simp only [takeUntil, List.takeWhile_cons]
    rw [if_pos (by simp [bne_iff_ne]; exact fun he => h.1 he.symm)]
    exact congrArg _ (ih h.2)

theorem pyStartsWith_subset {s p : String} (h : pyStartsWith s p = true) :
    ∀ c ∈ p.data, c ∈ s.data := by
  unfold pyStartsWith at h
  exact fun c hc => (List.isPrefixOf_iff_prefix.mp h).subset hc

/-- Characters cut away by `clean_domain` (`/`, `?`, `#`, `:`) never occur in
its output, and the output is its own lower-casing. -/
theorem clean_domain_marks (s : String) :
    '/' ∉ (clean_domain s).data ∧ '?' ∉ (clean_domain s).data ∧
    '#' ∉ (clean_domain s).data ∧ ':' ∉ (clean_domain s).data := by
  unfold clean_domain
  set d := (if pyStartsWith
      (if pyStartsWith (pyStrip s) "http://" then pyDrop (pyStrip s) 7
        else if pyStartsWith (pyStrip s) "https://" then pyDrop (pyStrip s) 8
        else pyStrip s) "www." then
      pyDrop
        (if pyStartsWith (pyStrip s) "http://" then pyDrop (pyStrip s) 7
          else if pyStartsWith (pyStrip s) "https://" then pyDrop (pyStrip s) 8
          else pyStrip s) 4
    else
      if pyStartsWith (pyStrip s) "http://" then pyDrop (pyStrip s) 7
      else if pyStartsWith (pyStrip s) "https://" then pyDrop (pyStrip s) 8
      else pyStrip s) with hd
  set l0 := takeUntil '#' (takeUntil '?' (takeUntil '/' d.data)) with hl0
  have h0 : ∀ x ∈ l0, x ∈ takeUntil '/' d.data := by
    intro x hx
    exact mem_of_mem_takeUntil (mem_of_mem_takeUntil hx)
  have hslash : '/' ∉ l0 := fun h => not_mem_takeUntil _ _ (h0 _ h)
  have hq : '?' ∉ l0 := fun h => not_mem_takeUntil _ _ (mem_of_mem_takeUntil h)
  have hh : '#' ∉ l0 := fun h => not_mem_takeUntil _ _ h
  set l1 := if l0.contains ':' then takeUntil ':' l0 else l0 with hl1
  have h1 : ∀ x ∈ l1, x ∈ l0 := by
    intro x hx
    rw [hl1] at hx
    split at hx
    · exact mem_of_mem_takeUntil hx
    · exact hx
  have hcolon : ':' ∉ l1 := by
    rw [hl1]
    split
    · exact not_mem_takeUntil _ _
    · next hc =>
      intro hmem
      exact hc (List.elem_eq_true_of_mem hmem)
  have key : ∀ m : Char, m.toNat < 97 → m ∉ l1 → m ∉ (pyLower ⟨l1⟩).data := by
    intro m hm hnot hmem
    simp only [pyLower, List.mem_map] at hmem
    obtain ⟨c, hc, hcm⟩ := hmem
    by_cases hcne : c = m
    · exact hnot (hcne ▸ hc)
    · exact pyCharLower_ne_low hm hcne hcm
  refine ⟨key '/' (by decide) (fun h => hslash (h1 _ h)),
          key '?' (by decide) (fun h => hq (h1 _ h)),
          key '#' (by decide) (fun h => hh (h1 _ h)),
          key ':' (by decide) hcolon⟩

/-- The output of `clean_domain` is entirely lower-case. -/
theorem clean_domain_lower (s : String) :
    pyLower (clean_domain s) = clean_domain s := by
  unfold clean_domain
  exact pyLower_idem _

/-- Claim C10 (amended): `clean_domain` is idempotent on every input whose
cleaned value has no leading/trailing whitespace and does not start with
`www.`; such outputs are fixed points of `clean_domain`.  (Unrestricted
idempotence fails, see the counterexample.) -/
theorem clean_domain_idem_on_fixed_points (s : String)
    (h1 : pyStrip (clean_domain s) = clean_domain s)
    (h2 : pyStartsWith (clean_domain s) "www." = false) :
    clean_domain (clean_domain s) = clean_domain s := by
  obtain ⟨hs, hq, hh, hc⟩ := clean_domain_marks s
  have hlow := clean_domain_lower s
  set t := clean_domain s with ht
  have hhttp : pyStartsWith t "http://" = false := by
    by_contra hx
    exact hs (pyStartsWith_subset (by simpa using hx) '/' (by decide))
  have hhttps : pyStartsWith t "https://" = false := by
    by_contra hx
    exact hs (pyStartsWith_subset (by simpa using hx) '/' (by decide))
  have hcont : t.data.contains ':' = false := by
    by_contra hx
    exact hc (List.elem_iff.mp (by simpa using hx))
  show clean_domain t = t
  unfold clean_domain
  simp only [h1, hhttp, hhttps, h2, hcont, Bool.false_eq_true, if_false,
    takeUntil_eq_self hs, takeUntil_eq_self hq, takeUntil_eq_self hh]
  exact hlow

/-- Claim C10 counterexample: `clean_domain` is not idempotent — the
`www.` check is case-sensitive and runs before lower-casing, so a
`WWW.`-prefixed input keeps its `www.` prefix after one cleaning and
loses it on the second. -/
theorem clean_domain_idem_counterexample :
    clean_domain "WWW.Example.cu" = "www.example.cu" ∧
    clean_domain (clean_domain "WWW.Example.cu") ≠ clean_domain "WWW.Example.cu" := by
  constructor
  · decide
  · decide

/-- Witness for the amended claim C10 at a concrete input. -/
theorem clean_domain_idem_witness :
    clean_domain (clean_domain "Example.CU") = clean_domain "Example.CU" :=
  clean_domain_idem_on_fixed_points "Example.CU" (by decide) (by decide)

theorem hostInvariant_clean_domain {s : String} (h : clean_domain s ≠ "") :
    hostInvariant (clean_domain s) := by
  obtain ⟨hs, hq, hh, hc⟩ := clean_domain_marks s
  refine ⟨h, clean_domain_lower s, ?_, ?_, hs, hq, hh, hc⟩
  · by_contra hx
    exact hs (pyStartsWith_subset (by simpa using hx) '/' (by decide))
  · by_contra hx
    exact hs (pyStartsWith_subset (by simpa using hx) '/' (by decide))

theorem processRowFallback_inv {domains : List String} (row : List (String × String))
    (hinv : ∀ h ∈ domains, hostInvariant h) (hnd : domains.Nodup) :
    (∀ h ∈ processRowFallback domains row, hostInvariant h) ∧
      (processRowFallback domains row).Nodup := by
  induction row with
  | nil => exact ⟨hinv, hnd⟩
  | cons kv rest ih =>
    obtain ⟨k, v⟩ := kv
    show (∀ h ∈ processRowFallback domains ((k, v) :: rest), hostInvariant h) ∧ _
    unfold processRowFallback
    split
    · split
      · next hdot =>
        split
        · next hnew =>
          constructor
          · intro h hmem
            rcases List.mem_append.mp hmem with hm | hm
            · exact hinv h hm
            · have he : h = clean_domain (pyStrip v) := List.mem_singleton.mp hm
              subst he
              refine hostInvariant_clean_domain ?_
              intro hempty
              rw [hempty] at hdot
              exact absurd hdot.1 (by decide)
          · rw [List.nodup_append]
            exact ⟨hnd, List.nodup_singleton _,
              fun a ha hb => hnew ((List.mem_singleton.mp hb) ▸ ha)⟩
        · exact ⟨hinv, hnd⟩
      · exact ih
    · exact ih

theorem processRow_inv {domains : List String} (row : List (String × String))
    (hinv : ∀ h ∈ domains, hostInvariant h) (hnd : domains.Nodup) :
    (∀ h ∈ processRow domains row, hostInvariant h) ∧
      (processRow domains row).Nodup := by
  unfold processRow
  split
  · split
    · next hcnd =>
      constructor
      · intro h hmem
        rcases List.mem_append.mp hmem with hm | hm
        · exact hinv h hm
        · exact (List.mem_singleton.mp hm) ▸ hostInvariant_clean_domain hcnd.1
      · rw [List.nodup_append]
        exact ⟨hnd, List.nodup_singleton _,
          fun a ha hb => hcnd.2 ((List.mem_singleton.mp hb) ▸ ha)⟩
    · exact ⟨hinv, hnd⟩
  · exact processRowFallback_inv row hinv hnd

/-- Claim C9 (amended): every host produced by the `load_domains` row
loop is non-empty, entirely lower-case, free of `/`, `?`, `#` and `:`
(hence carries no scheme prefix, path, query, fragment or port suffix),
and appears at most once.  The claim's remaining parts fail: a host
taken from a recognized domain column need not contain a `.` (that
check only guards the fallback path), and a `www.` prefix survives
when its original spelling was not lower-case (see the
counterexample). -/
theorem load_domains_invariant (rows : List (List (String × String))) :
    (∀ h ∈ load_domains rows, hostInvariant h) ∧ (load_domains rows).Nodup := by
  unfold load_domains
  generalize hacc : ([] : List String) = acc
  have hinv : ∀ h ∈ acc, hostInvariant h := by
    intro h hmem
    rw [← hacc] at hmem
    exact absurd hmem (List.not_mem_nil h)
  have hnd : acc.Nodup := by
    rw [← hacc]
    exact List.nodup_nil
  clear hacc
  induction rows generalizing acc with
  | nil => exact ⟨hinv, hnd⟩
  | cons row rest ih =>
    have step := processRow_inv row hinv hnd
    exact ih (processRow acc row) step.1 step.2

/-- Claim C9 counterexample: a `Domain`-column value without any `.`
(`localhost`) is loaded unchanged, and an upper-case `WWW.` prefix is
kept (lower-cased) rather than stripped. -/
theorem load_domains_counterexample :
    load_domains [[("Domain", "localhost")], [("Domain", "WWW.Example.cu")]] =
      ["localhost", "www.example.cu"] ∧
    '.' ∉ ("localhost" : String).data ∧
    pyStartsWith "www.example.cu" "www." = true := by
  refine ⟨by decide, by decide, by decide⟩

/-- Witness for the amended claim C9 at a concrete input. -/
theorem load_domains_invariant_witness :
    "example.cu" ∈ load_domains [[("Domain", "https://www.Example.cu/path?q=1")]] ∧
      hostInvariant "example.cu" ∧
      (load_domains [[("Domain", "https://www.Example.cu/path?q=1")]]).Nodup :=
  ⟨by decide,
   (load_domains_invariant [[("Domain", "https://www.Example.cu/path?q=1")]]).1
     "example.cu" (by decide),
   (load_domains_invariant [[("Domain", "https://www.Example.cu/path?q=1")]]).2⟩

theorem findAux_some_iff (pat : List Char) (l : List Char) (i j : Nat) :
    findAux pat l i = some j ↔
      i ≤ j ∧ pat.isPrefixOf (l.drop (j - i)) = true ∧
        ∀ m, i ≤ m → m < j → ¬ pat.isPrefixOf (l.drop (m - i)) = true := by
  induction l generalizing i with
  | nil =>
    unfold findAux
    split
    · next hpre =>
      simp only [Option.some_inj]
      constructor
      · rintro rfl
        exact ⟨Nat.le_refl _, by simpa using hpre, fun m h1 h2 => by omega⟩
      · rintro ⟨h1, h2, h3⟩
        by_contra hne
        exact h3 i (Nat.le_refl i) (by omega) (by simpa using hpre)
    · next hpre =>
      simp only [List.drop_nil]
      constructor
      · intro h
        exact absurd h (by simp)
      · rintro ⟨h1, h2, h3⟩
        exact absurd h2 hpre
  | cons c t ih =>
    unfold findAux
    split
    · next hpre =>
      simp only [Option.some_inj]
      constructor
      · rintro rfl
        refine ⟨Nat.le_refl _, by simpa using hpre, fun m h1 h2 => by omega⟩
      · rintro ⟨h1, h2, h3⟩
        by_contra hne
        have hij : i < j := Nat.lt_of_le_of_ne h1 hne
        exact h3 i (Nat.le_refl _) hij (by simpa using hpre)
    · next hpre =>
      rw [ih (i + 1)]
      constructor
      · rintro ⟨h1, h2, h3⟩
        refine ⟨by omega, ?_, ?_⟩
        · have : (c :: t).drop (j - i) = t.drop (j - (i + 1)) := by
            have hj : j - i = (j - (i + 1)) + 1 := by omega
            rw [hj, List.drop_succ_cons]
          rw [this]
          exact h2
        · intro m hm1 hm2 hmat
          rcases Nat.eq_or_lt_of_le hm1 with he | hlt
          · rw [← he, Nat.sub_self, List.drop_zero] at hmat
            exact hpre hmat
          · have : (c :: t).drop (m - i) = t.drop (m - (i + 1)) := by
              have hj : m - i = (m - (i + 1)) + 1 := by omega
              rw [hj, List.drop_succ_cons]
            rw [this] at hmat
            exact h3 m (by omega) hm2 hmat
      · rintro ⟨h1, h2, h3⟩
        have hij : i < j := by
          rcases Nat.eq_or_lt_of_le h1 with he | hlt
          · exfalso
            rw [← he, Nat.sub_self, List.drop_zero] at h2
            exact hpre h2
          · exact hlt
        refine ⟨by omega, ?_, ?_⟩
        · have : (c :: t).drop (j - i) = t.drop (j - (i + 1)) := by
            have hj : j - i = (j - (i + 1)) + 1 := by omega
            rw [hj, List.drop_succ_cons]
          rw [← this]
          exact h2
        · intro m hm1 hm2 hmat
          have : (c :: t).drop (m - i) = t.drop (m - (i + 1)) := by
            have hj : m - i = (m - (i + 1)) + 1 := by omega
            rw [hj, List.drop_succ_cons]
          rw [← this] at hmat
          exact h3 m (by omega) hm2 hmat

theorem findAux_none_iff (pat : List Char) (l : List Char) (i : Nat) :
    findAux pat l i = none ↔ ∀ d, ¬ pat.isPrefixOf (l.drop d) = true := by
  induction l generalizing i with
  | nil =>
    unfold findAux
    split
    · next hpre =>
      simp only [List.drop_nil]
      constructor
      · intro h
        exact absurd h (by simp)
      · intro h
        exact absurd (by simpa using hpre) (h 0)
    · next hpre =>
      constructor
      · intro _ d
        simpa [List.drop_nil] using hpre
      · intro _
        rfl
  | cons c t ih =>
    unfold findAux
    split
    · next hpre =>
      constructor
      · intro h
        exact absurd h (by simp)
      · intro h
        exact absurd (by simpa using hpre) (by simpa using h 0)
    · next hpre =>
      rw [ih (i + 1)]
      constructor
      · intro h d
        cases d with
        | zero => simpa using hpre
        | succ d => simpa [List.drop_succ_cons] using h d
      · intro h d
        simpa [List.drop_succ_cons] using h (d + 1)

theorem drop_drop_eq (s : List Char) {k m : Nat} (h : k ≤ m) :
    List.drop (m - k) (List.drop k s) = List.drop m s := by
  rw [List.drop_drop]
  congr 1
  omega

theorem pyFind_some_iff (s pat : String) (k j : Nat) :
    pyFind s pat k = some j ↔ leastOcc s pat k j := by
  unfold pyFind leastOcc matchesAt
  rw [findAux_some_iff]
  constructor
  · rintro ⟨h1, h2, h3⟩
    refine ⟨h1, ?_, ?_⟩
    · rwa [drop_drop_eq _ h1] at h2
    · intro m hm hkm hmat
      refine h3 m hkm hm ?_
      rwa [drop_drop_eq _ hkm]
  · rintro ⟨h1, h2, h3⟩
    refine ⟨h1, ?_, ?_⟩
    · rwa [drop_drop_eq _ h1]
    · intro m hkm hm hmat
      refine h3 m hm hkm ?_
      rwa [drop_drop_eq _ hkm] at hmat

theorem pyFind_none_iff (s pat : String) (k : Nat) :
    pyFind s pat k = none ↔ ∀ m, k ≤ m → ¬ matchesAt s pat m := by
  unfold pyFind matchesAt
  rw [findAux_none_iff]
  constructor
  · intro h m hm
    have := h (m - k)
    rwa [drop_drop_eq _ hm] at this
  · intro h d
    rw [List.drop_drop]
    exact h (k + d) (by omega)

theorem pyTake_length_le (s : String) (n : Nat) : (pyTake s n).data.length ≤ n := by
  show (List.take n s.data).length ≤ n
  rw [List.length_take]
  exact Nat.min_le_left _ _

/-- Claim C8: `extract_title` returns the text of the original body
between the first case-insensitively matched `<title>` and the first
following `</title>`, stripped and cut to at most 200 characters; when
either tag is missing it returns the empty string; and (being a total
function) it never raises. -/
theorem extract_title_correct (html : String) :
    (extract_title html).data.length ≤ 200 ∧
    ((∀ i, ¬ matchesAt (pyLower html) "<title>" i) → extract_title html = "") ∧
    (∀ i, leastOcc (pyLower html) "<title>" 0 i →
      (∀ m, i ≤ m → ¬ matchesAt (pyLower html) "</title>" m) →
      extract_title html = "") ∧
    (∀ i j, leastOcc (pyLower html) "<title>" 0 i →
      leastOcc (pyLower html) "</title>" i j →
      extract_title html = pyTake (pyStrip (pySlice html (i + 7) j)) 200) := by
  refine ⟨?_, ?_, ?_, ?_⟩
  · unfold extract_title
    split
    · decide
    · split
      · decide
      · exact pyTake_length_le _ _
  · intro h
    have hnone : pyFind (pyLower html) "<title>" 0 = none :=
      (pyFind_none_iff _ _ 0).mpr (fun m _ => h m)
    unfold extract_title
    rw [hnone]
  · intro i hocc hno
    have h1 : pyFind (pyLower html) "<title>" 0 = some i :=
      (pyFind_some_iff _ _ 0 i).mpr hocc
    have h2 : pyFind (pyLower html) "</title>" i = none :=
      (pyFind_none_iff _ _ i).mpr hno
    unfold extract_title
    rw [h1]
    show (match pyFind (pyLower html) "</title>" i with
      | none => ""
      | some e => pyTake (pyStrip (pySlice html (i + 7) e)) 200) = ""
    rw [h2]
  · intro i j hocc1 hocc2
    have h1 : pyFind (pyLower html) "<title>" 0 = some i :=
      (pyFind_some_iff _ _ 0 i).mpr hocc1
    have h2 : pyFind (pyLower html) "</title>" i = some j :=
      (pyFind_some_iff _ _ i j).mpr hocc2
    unfold extract_title
    rw [h1]
    show (match pyFind (pyLower html) "</title>" i with
      | none => ""
      | some e => pyTake (pyStrip (pySlice html (i + 7) e)) 200) =
        pyTake (pyStrip (pySlice html (i + 7) j)) 200
    rw [h2]

/-- Witness for claim C8 at a concrete input. -/
theorem extract_title_witness :
    extract_title "X<TiTlE>Hi there!</tItLe>Y" = "Hi there!" := by
  have h := (extract_title_correct "X<TiTlE>Hi there!</tItLe>Y").2.2.2 1 17
    (by decide) (by decide)
  rw [h]
  decide

theorem http_data_eq : "http://".data = ['h', 't', 't', 'p', ':', '/', '/'] := by
  decide

theorem https_data_eq : "https://".data = ['h', 't', 't', 'p', 's', ':', '/', '/'] := by
  decide

theorem replaceHtAux_https (rest : List Char) (n : Nat) :
    replaceHtAux (n + 1) (['h', 't', 't', 'p', 's', ':', '/', '/'] ++ rest) =
      ['h', 't', 't', 'p', ':', '/', '/'] ++ replaceHtAux n rest := by
  have hpre : ("https://".data).isPrefixOf
      ('h' :: 't' :: 't' :: 'p' :: 's' :: ':' :: '/' :: '/' :: rest) = true := by
    rw [https_data_eq]
    simp [List.isPrefixOf]
  show replaceHtAux (n + 1) ('h' :: 't' :: 't' :: 'p' :: 's' :: ':' :: '/' :: '/' :: rest) = _
  rw [replaceHtAux, if_pos hpre, http_data_eq]
  rfl

/-- Rewriting `https://` to `http://` on an `https://`-prefixed URL yields
an `http://`-prefixed URL, which in particular no longer starts with
`https://` — so the Python recursion in `check_url` stops after one
retry. -/
theorem pyReplaceHttps_startsWith {url : String}
    (h : pyStartsWith url "https://" = true) :
    pyStartsWith (pyReplaceHttps url) "http://" = true ∧
    pyStartsWith (pyReplaceHttps url) "https://" = false := by
  obtain ⟨rest, hrest⟩ := List.isPrefixOf_iff_prefix.mp h
  rw [https_data_eq] at hrest
  have hdata : (pyReplaceHttps url).data =
      ['h', 't', 't', 'p', ':', '/', '/'] ++ replaceHtAux (rest.length + 7) rest := by
    show replaceHtAux url.data.length url.data = _
    conv_lhs => rw [← hrest]
    have hlen : (['h', 't', 't', 'p', 's', ':', '/', '/'] ++ rest).length =
        rest.length + 8 := by
      simp [List.length_append]
    rw [hlen]
    exact replaceHtAux_https rest (rest.length + 7)
  constructor
  · show ("http://".data).isPrefixOf (pyReplaceHttps url).data = true
    rw [hdata, http_data_eq]
    simp [List.isPrefixOf]
  · show ("https://".data).isPrefixOf (pyReplaceHttps url).data = false
    rw [hdata, https_data_eq]
    simp [List.isPrefixOf]

/-- Fuel irrelevance for `check_urlFuel`: depth 2 computes the fixed
point, i.e. the Python recursion in `check_url` never reaches depth 3. -/
theorem check_urlFuel_stable (net : String → NetOutcome) (url : String) (k : Nat) :
    check_urlFuel net (k + 2) url = check_urlFuel net 2 url := by
  cases hnet : net url with
  | success r => simp [check_urlFuel, hnet]
  | otherError => simp [check_urlFuel, hnet]
  | sslError =>
    by_cases hs : pyStartsWith url "https://" = true
    · have hf := pyReplaceHttps_startsWith hs
      cases hnet2 : net (pyReplaceHttps url) with
      | success r => simp [check_urlFuel, hnet, hnet2, hs]
      | otherError => simp [check_urlFuel, hnet, hnet2, hs]
      | sslError => simp [check_urlFuel, hnet, hnet2, hs, hf.2]
    · simp [check_urlFuel, hnet, hs]

/-- Claim C5: when the GET raises anything other than an `SSLError`
(DNS failure, connection refused, timeout, malformed response, ...),
`check_url` returns `None`; being a total function of the oracle, it
propagates no exception to its caller. -/
theorem check_url_other_exception_none (net : String → NetOutcome) (url : String)
    (h : net url = NetOutcome.otherError) : check_url net url = none := by
  unfold check_url
  simp [check_urlFuel, h]

/-- Witness for claim C5 at a concrete input. -/
theorem check_url_other_exception_witness :
    check_url netOther "https://example.cu/" = none :=
  check_url_other_exception_none netOther "https://example.cu/" rfl

/-- Claim C4 (amended): on a TLS failure for an `https://` URL,
`check_url` retries exactly once with the URL obtained by replacing
every occurrence of `https://` by `http://` (the host is preserved, and
so is the path unless it itself contains `https://`); when the retry
succeeds, the single result carries the rewritten `http://` URL (no
`https` result is produced); and the recursion never goes deeper than
that one retry (any fuel beyond 2 computes the same answer). -/
theorem check_url_ssl_fallback (net : String → NetOutcome) (url : String)
    (r : PyResponse)
    (hhttps : pyStartsWith url "https://" = true)
    (hssl : net url = NetOutcome.sslError) :
    (net (pyReplaceHttps url) = NetOutcome.success r →
      check_url net url = some (mkProbeResult (pyReplaceHttps url) r)) ∧
    pyStartsWith (pyReplaceHttps url) "http://" = true ∧
    pyStartsWith (pyReplaceHttps url) "https://" = false ∧
    (∀ k, check_urlFuel net (k + 2) url = check_url net url) := by
  obtain ⟨h1, h2⟩ := pyReplaceHttps_startsWith hhttps
  refine ⟨?_, h1, h2, fun k => check_urlFuel_stable net url k⟩
  intro hok
  unfold check_url
  simp [check_urlFuel, hssl, hhttps, hok]

/-- Claim C4 counterexample: `url.replace('https://', 'http://')`
replaces every occurrence, so for an `https` URL whose query itself
contains `https://`, the retry URL is not the same-host-same-path URL
with only the scheme rewritten: the recorded result carries the fully
rewritten URL, and the scheme-only rewrite (same host and path) was
never tried successfully. -/
theorem check_url_ssl_rewrite_counterexample :
    (check_url netWildRewrite "https://h.cu/a?u=https://x.cu/").map ProbeResult.url =
      some "http://h.cu/a?u=http://x.cu/" ∧
    "http://h.cu/a?u=http://x.cu/" ≠
      "http://" ++ pyDrop "https://h.cu/a?u=https://x.cu/" 8 ∧
    check_url netWildRewrite ("http://" ++ pyDrop "https://h.cu/a?u=https://x.cu/" 8) =
      none := by
  refine ⟨by decide, by decide, by decide⟩

/-- Witness for the amended claim C4 at a concrete input. -/
theorem check_url_ssl_fallback_witness :
    check_url netSslThenOk "https://ok.cu/" =
      some (mkProbeResult (pyReplaceHttps "https://ok.cu/") respOkPlain) ∧
    check_urlFuel netSslThenOk 5 "https://ok.cu/" =
      check_url netSslThenOk "https://ok.cu/" := by
  have h := check_url_ssl_fallback netSslThenOk "https://ok.cu/" respOkPlain
    (by decide) (by decide)
  exact ⟨h.1 (by decide), h.2.2.2 3⟩

theorem probePaths_mem (net : String → NetOutcome) (protocol domain : String) :
    ∀ (ps : List String) (found : List ProbeResult) (r : ProbeResult),
      r ∈ (probePaths net protocol domain ps found).1 →
      r ∈ found ∨ r.status_code < 500 := by
  intro ps
  induction ps with
  | nil =>
    intro found r h
    exact Or.inl h
  | cons path rest ih =>
    intro found r h
    unfold probePaths at h
    split at h
    · next r0 heq =>
      split at h
      · next hlt =>
        split at h
        · next hbreak =>
          rcases List.mem_append.mp h with hm | hm
          · exact Or.inl hm
          · exact Or.inr ((List.mem_singleton.mp hm) ▸ hlt)
        · rcases ih (found ++ [r0]) r h with hm | hm
          · rcases List.mem_append.mp hm with hm2 | hm2
            · exact Or.inl hm2
            · exact Or.inr ((List.mem_singleton.mp hm2) ▸ hlt)
          · exact Or.inr hm
      · exact ih found r h
    · exact ih found r h

theorem probePaths_found_prefix (net : String → NetOutcome) (protocol domain : String) :
    ∀ (ps : List String) (found : List ProbeResult),
      ∃ tail, (probePaths net protocol domain ps found).1 = found ++ tail := by
  intro ps
  induction ps with
  | nil =>
    intro found
    exact ⟨[], (List.append_nil found).symm⟩
  | cons path rest ih =>
    intro found
    unfold probePaths
    split
    · next r0 heq =>
      split
      · split
        · exact ⟨[r0], rfl⟩
        · obtain ⟨t, ht⟩ := ih (found ++ [r0])
          exact ⟨[r0] ++ t, by rw [ht, List.append_assoc]⟩
      · exact ih found
    · exact ih found

theorem probePaths_trace_prefix (net : String → NetOutcome) (protocol domain : String) :
    ∀ (ps : List String) (found : List ProbeResult),
      ((probePaths net protocol domain ps found).2.map Attempt.path) <+: ps := by
  intro ps
  induction ps with
  | nil =>
    intro found
    exact List.nil_prefix
  | cons path rest ih =>
    intro found
    unfold probePaths
    split
    · next r0 heq =>
      split
      · split
        · exact ⟨rest, rfl⟩
        · obtain ⟨t, ht⟩ := ih (found ++ [r0])
          exact ⟨t, by rw [List.map_cons, List.cons_append, ht]⟩
      · obtain ⟨t, ht⟩ := ih found
        exact ⟨t, by rw [List.map_cons, List.cons_append, ht]⟩
    · obtain ⟨t, ht⟩ := ih found
      exact ⟨t, by rw [List.map_cons, List.cons_append, ht]⟩

theorem probePaths_trace_protocol (net : String → NetOutcome) (protocol domain : String) :
    ∀ (ps : List String) (found : List ProbeResult) (A : Attempt),
      A ∈ (probePaths net protocol domain ps found).2 → A.protocol = protocol := by
  intro ps
  induction ps with
  | nil =>
    intro found A h
    exact absurd h (List.not_mem_nil A)
  | cons path rest ih =>
    intro found A h
    unfold probePaths at h
    split at h
    · next r0 heq =>
      split at h
      · split at h
        · rw [List.mem_singleton.mp h]
        · rcases List.mem_cons.mp h with hm | hm
          · rw [hm]
          · exact ih (found ++ [r0]) A hm
      · rcases List.mem_cons.mp h with hm | hm
        · rw [hm]
        · exact ih found A hm
    · rcases List.mem_cons.mp h with hm | hm
      · rw [hm]
      · exact ih found A hm

theorem probePaths_200_last (net : String → NetOutcome) (domain : String) :
    ∀ (ps : List String) (found : List ProbeResult) (pre post : List Attempt)
      (A : Attempt) (r : ProbeResult),
      (probePaths net "https" domain ps found).2 = pre ++ A :: post →
      A.result = some r → r.status_code = 200 → post = [] := by
  intro ps
  induction ps with
  | nil =>
    intro found pre post A r htrace hres h200
    unfold probePaths at htrace
    simp at htrace
  | cons path rest ih =>
    intro found pre post A r htrace hres h200
    unfold probePaths at htrace
    split at htrace
    · next r0 heq =>
      split at htrace
      · next hlt =>
        split at htrace
        · next hbreak =>
          cases pre with
          | nil =>
            simp only [List.nil_append, List.cons.injEq] at htrace
            exact htrace.2.symm
          | cons x xs =>
            simp only [List.cons_append, List.cons.injEq] at htrace
            exact absurd htrace.2 (by simp)
        · next hnobreak =>
          cases pre with
          | nil =>
            simp only [List.nil_append, List.cons.injEq] at htrace
            rw [← htrace.1] at hres
            simp only [Option.some_inj] at hres
            have h0 : r0.status_code = 200 := by
              rw [hres]
              exact h200
            exact absurd ⟨rfl, h0⟩ hnobreak
          | cons x xs =>
            simp only [List.cons_append, List.cons.injEq] at htrace
            exact ih (found ++ [r0]) xs post A r htrace.2 hres h200
      · next hge =>
        cases pre with
        | nil =>
          simp only [List.nil_append, List.cons.injEq] at htrace
          rw [← htrace.1] at hres
          simp only [Option.some_inj] at hres
          rw [hres, h200] at hge
          exact absurd (by decide : (200 : Nat) < 500) hge
        | cons x xs =>
          simp only [List.cons_append, List.cons.injEq] at htrace
          exact ih found xs post A r htrace.2 hres h200
    · cases pre with
      | nil =>
        simp only [List.nil_append, List.cons.injEq] at htrace
        rw [← htrace.1] at hres
        exact absurd hres (by simp)
      | cons x xs =>
        simp only [List.cons_append, List.cons.injEq] at htrace
        exact ih found xs post A r htrace.2 hres h200

theorem probePaths_result_mem (net : String → NetOutcome) (protocol domain : String) :
    ∀ (ps : List String) (found : List ProbeResult) (pre post : List Attempt)
      (A : Attempt) (r : ProbeResult),
      (probePaths net protocol domain ps found).2 = pre ++ A :: post →
      A.result = some r → r.status_code < 500 →
      r ∈ (probePaths net protocol domain ps found).1 := by
  intro ps
  induction ps with
  | nil =>
    intro found pre post A r htrace hres hlt
    unfold probePaths at htrace
    simp at htrace
  | cons path rest ih =>
    intro found pre post A r htrace hres hlt
    cases hcu : check_url net (urljoinRoot (protocol ++ "://" ++ domain) path) with
    | some r0 =>
      by_cases hlt0 : r0.status_code < 500
      · by_cases hbr : protocol = "https" ∧ r0.status_code = 200
        · simp only [probePaths, hcu, if_pos hlt0, if_pos hbr] at htrace ⊢
          cases pre with
          | nil =>
            simp only [List.nil_append, List.cons.injEq] at htrace
            rw [← htrace.1] at hres
            simp only [Option.some_inj] at hres
            rw [← hres]
            exact List.mem_append.mpr (Or.inr (List.mem_singleton_self r0))
          | cons x xs =>
            simp only [List.cons_append, List.cons.injEq] at htrace
            exact absurd htrace.2 (by simp)
        · simp only [probePaths, hcu, if_pos hlt0, if_neg hbr] at htrace ⊢
          cases pre with
          | nil =>
            simp only [List.nil_append, List.cons.injEq] at htrace
            rw [← htrace.1] at hres
            simp only [Option.some_inj] at hres
            obtain ⟨t, ht⟩ := probePaths_found_prefix net protocol domain rest (found ++ [r0])
            rw [ht, ← hres]
            exact List.mem_append.mpr
              (Or.inl (List.mem_append.mpr (Or.inr (List.mem_singleton_self r0))))
          | cons x xs =>
            simp only [List.cons_append, List.cons.injEq] at htrace
            exact ih (found ++ [r0]) xs post A r htrace.2 hres hlt
      · simp only [probePaths, hcu, if_neg hlt0] at htrace ⊢
        cases pre with
        | nil =>
          simp only [List.nil_append, List.cons.injEq] at htrace
          rw [← htrace.1] at hres
          simp only [Option.some_inj] at hres
          rw [hres] at hlt0
          exact absurd hlt hlt0
        | cons x xs =>
          simp only [List.cons_append, List.cons.injEq] at htrace
          exact ih found xs post A r htrace.2 hres hlt
    | none =>
      simp only [probePaths, hcu] at htrace ⊢
      cases pre with
      | nil =>
        simp only [List.nil_append, List.cons.injEq] at htrace
        rw [← htrace.1] at hres
        exact absurd hres (by simp)
      | cons x xs =>
        simp only [List.cons_append, List.cons.injEq] at htrace
        exact ih found xs post A r htrace.2 hres hlt

theorem httpsAttempts_eq (net : String → NetOutcome) (domain : String) :
    httpsAttempts net domain = (probePaths net "https" domain paths []).2 := by
  unfold httpsAttempts probe_domainFull
  split <;> rfl

/-- Claim C1: every element of the collection `probe_domain` returns has
status code strictly below 500 — a `check_url` result with status 500 or
above is never appended. -/
theorem probe_domain_status_lt_500 (net : String → NetOutcome) (domain : String) :
    ∀ r ∈ probe_domain net domain, r.status_code < 500 := by
  intro r hr
  unfold probe_domain probe_domainFull at hr
  split at hr
  · next hempty =>
    rcases probePaths_mem net "http" domain paths _ r hr with hmem | hlt
    · rw [hempty] at hmem
      exact absurd hmem (List.not_mem_nil r)
    · exact hlt
  · rcases probePaths_mem net "https" domain paths [] r hr with hmem | hlt
    · exact absurd hmem (List.not_mem_nil r)
    · exact hlt

/-- Claim C2: if the HTTPS pass records a result with status exactly
200 at some point of its attempt trace, that attempt is the last one of
the pass (nothing follows it), the attempted paths form a prefix of the
fixed path list, and the HTTP pass performs no attempt at all. -/
theorem probe_domain_https_200_early_exit (net : String → NetOutcome) (domain : String)
    (pre post : List Attempt) (A : Attempt) (r : ProbeResult)
    (htrace : httpsAttempts net domain = pre ++ A :: post)
    (hres : A.result = some r) (h200 : r.status_code = 200) :
    post = [] ∧ (httpsAttempts net domain).map Attempt.path <+: paths ∧
      httpAttempts net domain = [] := by
  rw [httpsAttempts_eq] at htrace
  have hmem : r ∈ (probePaths net "https" domain paths []).1 :=
    probePaths_result_mem net "https" domain paths [] pre post A r htrace hres
      (by rw [h200]; decide)
  have hne : (probePaths net "https" domain paths []).1 ≠ [] := by
    intro h0
    rw [h0] at hmem
    exact absurd hmem (List.not_mem_nil r)
  refine ⟨probePaths_200_last net domain paths [] pre post A r htrace hres h200, ?_, ?_⟩
  · rw [httpsAttempts_eq]
    exact probePaths_trace_prefix net "https" domain paths []
  · unfold httpAttempts probe_domainFull
    rw [if_neg hne]

/-- Claim C3: if the HTTPS pass accumulated at least one result, the
HTTP pass is skipped entirely — no attempt with the `http` protocol is
performed, the returned collection is exactly the HTTPS pass's, and
every attempt performed used the `https` protocol. -/
theorem probe_domain_https_found_skips_http (net : String → NetOutcome) (domain : String)
    (h : (probePaths net "https" domain paths []).1 ≠ []) :
    httpAttempts net domain = [] ∧
    probe_domain net domain = (probePaths net "https" domain paths []).1 ∧
    (∀ A ∈ httpsAttempts net domain, A.protocol = "https") := by
  refine ⟨?_, ?_, ?_⟩
  · unfold httpAttempts probe_domainFull
    rw [if_neg h]
  · unfold probe_domain probe_domainFull
    rw [if_neg h]
  · intro A hA
    rw [httpsAttempts_eq] at hA
    exact probePaths_trace_protocol net "https" domain paths [] A hA

/-- Witness for claim C1 at a concrete input. -/
theorem probe_domain_status_lt_500_witness :
    mkProbeResult "https://h.cu/" resp200cu ∈ probe_domain netOneHit "h.cu" ∧
    (mkProbeResult "https://h.cu/" resp200cu).status_code < 500 :=
  ⟨by decide,
   probe_domain_status_lt_500 netOneHit "h.cu" (mkProbeResult "https://h.cu/" resp200cu)
     (by decide)⟩

/-- Witness for claim C2 at a concrete input. -/
theorem probe_domain_https_200_early_exit_witness :
    ([] : List Attempt) = [] ∧
    (httpsAttempts netOneHit "h.cu").map Attempt.path <+: paths ∧
    httpAttempts netOneHit "h.cu" = [] :=
  probe_domain_https_200_early_exit netOneHit "h.cu" [] []
    ⟨"https", "/", "https://h.cu/", some (mkProbeResult "https://h.cu/" resp200cu)⟩
    (mkProbeResult "https://h.cu/" resp200cu) (by decide) rfl (by decide)

/-- Witness for claim C3 at a concrete input. -/
theorem probe_domain_https_found_skips_http_witness :
    httpAttempts netOneHit "h.cu" = [] ∧
    probe_domain netOneHit "h.cu" = (probePaths netOneHit "https" "h.cu" paths []).1 ∧
    (∀ A ∈ httpsAttempts netOneHit "h.cu", A.protocol = "https") :=
  probe_domain_https_found_skips_http netOneHit "h.cu" (by decide)

theorem probe_all_domains_foldl (outcome : String → Except String (List ProbeResult)) :
    ∀ (order : List String) (acc : List ProbeResult),
      order.foldl
        (fun acc d =>
          match outcome d with
          | .ok rs => if rs ≠ [] then acc ++ rs else acc
          | .error _ => acc) acc = acc ++ flatResults outcome order := by
  intro order
  induction order with
  | nil =>
    intro acc
    simp [flatResults]
  | cons d rest ih =>
    intro acc
    rw [List.foldl_cons, ih, flatResults]
    have hstep : (match outcome d with
        | .ok rs => if rs ≠ [] then acc ++ rs else acc
        | .error _ => acc) = acc ++ taskResults outcome d := by
      unfold taskResults
      cases outcome d with
      | ok rs =>
        by_cases hrs : rs = []
        · simp [hrs]
        · simp [hrs]
      | error e => simp
    rw [hstep, List.append_assoc]

theorem flatResults_perm (outcome : String → Except String (List ProbeResult))
    {l1 l2 : List String} (h : l1.Perm l2) :
    (flatResults outcome l1).Perm (flatResults outcome l2) := by
  induction h with
  | nil => exact List.Perm.refl _
  | cons x _ ih => exact (List.Perm.append_left _ ih).trans (List.Perm.refl _)
  | swap x y l =>
    show (taskResults outcome y ++ (taskResults outcome x ++ flatResults outcome l)).Perm
      (taskResults outcome x ++ (taskResults outcome y ++ flatResults outcome l))
    rw [← List.append_assoc, ← List.append_assoc]
    exact List.Perm.append_right _ (List.perm_append_comm)
  | trans _ _ ih1 ih2 => exact ih1.trans ih2

/-- Claim C6: exactly one task is submitted per entry of the host list;
for every completion order (any permutation of that list), the collected
flat result list is — up to the ordering nondeterminism of completion —
the concatenation of each host's task results, where a host whose task
raised contributes nothing while every other host's results are all
collected; the fold is total, so no per-host exception escapes and no
host is silently dropped. -/
theorem probe_all_domains_isolation
    (outcome : String → Except String (List ProbeResult))
    (domains completionOrder : List String)
    (hperm : completionOrder.Perm domains) :
    (probe_all_domains outcome completionOrder).Perm (flatResults outcome domains) := by
  unfold probe_all_domains
  rw [probe_all_domains_foldl outcome completionOrder []]
  rw [List.nil_append]
  exact flatResults_perm outcome hperm

/-- Witness for claim C6 at a concrete input: completions arrive in
reverse submission order, the erroring host contributes nothing. -/
theorem probe_all_domains_isolation_witness :
    (probe_all_domains outcomeMixed ["b.cu", "a.cu"]).Perm
      (flatResults outcomeMixed ["a.cu", "b.cu"]) :=
  probe_all_domains_isolation outcomeMixed ["a.cu", "b.cu"] ["b.cu", "a.cu"]
    (by decide)

theorem lookup_bump_self {α : Type} [BEq α] [LawfulBEq α]
    (d : List (α × Nat)) (k : α) :
    (bump d k).lookup k = some (((d.lookup k).getD 0) + 1) := by
  induction d with
  | nil => simp [bump, List.lookup]
  | cons p rest ih =>
    obtain ⟨a, n⟩ := p
    by_cases ha : a = k
    · subst ha
      simp [bump, List.lookup]
    · have hne : (a == k) = false := beq_eq_false_iff_ne.mpr ha
      have hne2 : (k == a) = false := beq_eq_false_iff_ne.mpr (Ne.symm ha)
      simp [bump, List.lookup, hne, hne2, ih]

theorem lookup_bump_ne {α : Type} [BEq α] [LawfulBEq α]
    (d : List (α × Nat)) (k k2 : α) (h : k2 ≠ k) :
    (bump d k).lookup k2 = d.lookup k2 := by
  induction d with
  | nil =>
    simp [bump, List.lookup, beq_eq_false_iff_ne.mpr h]
  | cons p rest ih =>
    obtain ⟨a, n⟩ := p
    by_cases ha : a = k
    · subst ha
      simp [bump, List.lookup, beq_eq_false_iff_ne.mpr h]
    · have hne : (a == k) = false := beq_eq_false_iff_ne.mpr ha
      by_cases hk2 : k2 = a
      · subst hk2
        simp [bump, List.lookup, hne]
      · have hne2 : (k2 == a) = false := beq_eq_false_iff_ne.mpr hk2
        simp [bump, List.lookup, hne, hne2, ih]

theorem lookup_foldl_bump {α β : Type} [BEq α] [LawfulBEq α] (f : β → α) :
    ∀ (xs : List β) (d : List (α × Nat)) (k : α),
      (xs.foldl (fun acc u => bump acc (f u)) d).lookup k =
        match d.lookup k with
        | some n => some (n + countKey f k xs)
        | none => if countKey f k xs = 0 then none else some (countKey f k xs) := by
  intro xs
  induction xs with
  | nil =>
    intro d k
    simp only [List.foldl_nil, countKey, List.filter_nil, List.length_nil]
    cases d.lookup k with
    | none => simp
    | some n => simp
  | cons x rest ih =>
    intro d k
    rw [List.foldl_cons, ih]
    by_cases hx : f x = k
    · have hxb : (f x == k) = true := beq_iff_eq.mpr hx
      have hcount : countKey f k (x :: rest) = countKey f k rest + 1 := by
        simp [countKey, List.filter_cons, hxb]
      rw [hcount]
      subst hx
      rw [lookup_bump_self]
      cases hd : d.lookup (f x) with
      | none =>
        simp only [Option.getD_none]
        simp
        omega
      | some n =>
        simp only [Option.getD_some]
        simp
        omega
    · have hxb : (f x == k) = false := beq_eq_false_iff_ne.mpr hx
      have hcount : countKey f k (x :: rest) = countKey f k rest := by
        simp [countKey, List.filter_cons, hxb]
      rw [hcount, lookup_bump_ne d (f x) k (Ne.symm hx)]

/-- On any successful exchange, `check_url` records as `domain` the
network location of the response's final (post-redirect) URL. -/
theorem check_url_domain_resolved (net : String → NetOutcome) (u : String)
    (pr : ProbeResult) (h : check_url net u = some pr) :
    pr.domain = netlocOf pr.final_url := by
  unfold check_url at h
  cases hnet : net u with
  | success r =>
    simp [check_urlFuel, hnet, mkProbeResult] at h
    rw [← h]
  | otherError => simp [check_urlFuel, hnet] at h
  | sslError =>
    by_cases hs : pyStartsWith u "https://" = true
    · simp only [check_urlFuel, hnet, hs, if_true] at h
      cases hnet2 : net (pyReplaceHttps u) with
      | success r =>
        simp [check_urlFuel, hnet2, mkProbeResult] at h
        rw [← h]
      | otherError => simp [check_urlFuel, hnet2] at h
      | sslError =>
        simp [check_urlFuel, hnet2, (pyReplaceHttps_startsWith hs).2] at h
    · simp [check_urlFuel, hnet, hs] at h

/-- Claim C7 (amended): for a non-empty result list the summarizer
produces the two counting mappings — resolved host (the post-redirect
network location `check_url` recorded, see the last conjunct) to the
number of results with that host, and status code to the number of
results with that code.  For the empty list the Python function returns
early and produces no mappings at all (see the counterexample), so the
"two empty mappings" reading fails. -/
theorem generate_summary_counts (urls : List ProbeResult) (hne : urls ≠ []) :
    generate_summary_report urls = some (hostCounts urls, statusCounts urls) ∧
    (∀ h : String, (hostCounts urls).lookup h =
      if countKey ProbeResult.domain h urls = 0 then none
      else some (countKey ProbeResult.domain h urls)) ∧
    (∀ s : Nat, (statusCounts urls).lookup s =
      if countKey ProbeResult.status_code s urls = 0 then none
      else some (countKey ProbeResult.status_code s urls)) ∧
    (∀ (net : String → NetOutcome) (u : String) (pr : ProbeResult),
      check_url net u = some pr → pr.domain = netlocOf pr.final_url) := by
  refine ⟨by simp [generate_summary_report, hne], ?_, ?_, check_url_domain_resolved⟩
  · intro h
    unfold hostCounts
    rw [lookup_foldl_bump ProbeResult.domain urls [] h]
    rfl
  · intro s
    unfold statusCounts
    rw [lookup_foldl_bump ProbeResult.status_code urls [] s]
    rfl

/-- Claim C7 counterexample: on the empty collection the summarizer
does not produce two empty mappings — it returns early and produces
none at all. -/
theorem generate_summary_empty_counterexample :
    generate_summary_report [] = none ∧
    generate_summary_report [] ≠
      some (([] : List (String × Nat)), ([] : List (Nat × Nat))) := by
  refine ⟨by decide, by decide⟩

/-- Witness for the amended claim C7 at a concrete input. -/
theorem generate_summary_counts_witness :
    generate_summary_report [mkProbeResult "https://h.cu/" resp200cu] =
      some (hostCounts [mkProbeResult "https://h.cu/" resp200cu],
            statusCounts [mkProbeResult "https://h.cu/" resp200cu]) ∧
    (hostCounts [mkProbeResult "https://h.cu/" resp200cu]).lookup "h.cu" = some 1 := by
  have h := generate_summary_counts [mkProbeResult "https://h.cu/" resp200cu] (by decide)
  refine ⟨h.1, ?_⟩
  rw [h.2.1 "h.cu"]
  decide

end CubanURL
